import Mathlib

/-!
Verification development for `scripts/gen_jct_vc.py` (fluster).

The script builds a test-suite manifest for codec conformance streams.  We give
a shallow embedding of its core logic:

* `HREFParser` (link extraction) — the HTML tokenizer of the standard library
  is external, so we model its output as a list of start-tag events; the
  class-level `links` list is modelled as explicitly threaded state.
* the manifest-building loop of `JCTVTGenerator.generate`;
* `JCTVTGenerator._find_by_ext` — `os.walk` is external, so we model its
  output as the list of `(subdir, files)` pairs it yields (the unused
  `dirs` component is dropped); `os.sep` is modelled as `"/"`.
* `JCTVTGenerator._fill_checksum_h265` and `_fill_checksum_h264`; file
  contents are modelled as a map from path to the list of lines that
  successive `readline()` calls return (each line keeps its trailing
  newline; after the last line `readline()` returns the empty string).
* the per-vector resolution loop of `generate`; `utils.file_checksum` is
  external and modelled as a function parameter.

Python string operations are embedded as executable functions on `List Char`
(`str.split` with a one-character separator, `str.strip`, `str.upper`,
`in`-substring tests, `startswith`, `endswith`).
-/

namespace GenJctVc

/-! ### Python string primitives -/

/-- Python `s.split(sep)` for a one-character separator, on character lists. -/
def splitOnChar (sep : Char) : List Char → List (List Char)
  | [] => [[]]
  | c :: rest =>
    if c = sep then [] :: splitOnChar sep rest
    else
      match splitOnChar sep rest with
      | [] => [[c]]
      | h :: t => (c :: h) :: t

/-- Python `needle in hay` on character lists. -/
def containsSub (needle : List Char) : List Char → Bool
  | [] => needle.isEmpty
  | c :: rest => needle.isPrefixOf (c :: rest) || containsSub needle rest

/-- Python `needle in hay` for strings. -/
def strContains (hay needle : String) : Bool := containsSub needle.toList hay.toList

/-- Python whitespace (the characters removed by `str.strip()`). -/
def pyIsSpace (c : Char) : Bool :=
  c = ' ' || c = '\t' || c = '\n' || c = '\r' || c = '\x0b' || c = '\x0c'

/-- Python `s.strip()` on character lists. -/
def pyStripL (l : List Char) : List Char :=
  ((l.dropWhile pyIsSpace).reverse.dropWhile pyIsSpace).reverse

/-- Python `s.strip()`. -/
def pyStrip (s : String) : String := (pyStripL s.toList).asString

/-- Python `s.upper()` on character lists (ASCII, as used by the script). -/
def pyUpperL (l : List Char) : List Char := l.map Char.toUpper

/-- Python `s.upper()`. -/
def pyUpper (s : String) : String := (pyUpperL s.toList).asString

/-- Python `s.startswith(pre)`. -/
def pyStartsWith (s pre : String) : Bool := pre.toList.isPrefixOf s.toList

/-- Python `s.endswith(suf)`. -/
def pyEndsWith (s suf : String) : Bool := suf.toList.isSuffixOf s.toList

/-! ### Module-level constants of the script -/

def BASE_URL : String := "https://www.itu.int/"

def BITSTREAM_EXTS : List String :=
  [".bin", ".bit", ".264", ".h264", ".jvc", ".jsv", ".jvt", ".avc", ".26l"]

def MD5_EXTS : List String := ["yuv.md5", ".md5", "md5.txt"]

def MD5_EXCLUDES : List String := ["__MACOSX", ".bin.md5", "bit.md5"]

def RAW_EXTS : List String := [".yuv", ".qcif"]

/-! ### Data model -/

/-- The `TestVector` record of `fluxion.test_suite`, as used by the script:
constructed as `TestVector(name, source, source_hash, input, result)`. -/
structure TestVector where
  name : String
  source : String
  source_hash : String
  input : String
  result : String
deriving DecidableEq

/-- The `fluxion.codec.Codec` tag, restricted to the two variants the script
uses. -/
inductive Codec
  | H264
  | H265
deriving DecidableEq

/-! ### HREFParser (link extraction)

The standard-library `HTMLParser` is external; we model the stream of
start-tag events it delivers to `handle_starttag`.  The class-level `links`
list (a single list shared by all instances, never cleared) is modelled as
state threaded through `feed`. -/

/-- One start-tag event delivered by the underlying HTML parser. -/
structure StartTag where
  tag : String
  attrs : List (String × String)
deriving DecidableEq

/-- Body of `HREFParser.handle_starttag`: for an anchor tag, append
`BASE_URL + value` to the shared links list for every `href` attribute. -/
def handle_starttag (links : List String) (e : StartTag) : List String :=
  if e.tag = "a" then
    e.attrs.foldl
      (fun ls nv => if nv.1 = "href" then ls ++ [BASE_URL ++ nv.2] else ls) links
  else links

/-- Feeding a sequence of start-tag events to the parser, starting from the
current state of the shared class-level `links` list. -/
def feed (links : List String) (events : List StartTag) : List String :=
  events.foldl handle_starttag links

/-- The href values contributed by one event (all `href` attributes of an
anchor tag). -/
def tagHrefs (e : StartTag) : List String :=
  if e.tag = "a" then
    e.attrs.filterMap (fun nv => if nv.1 = "href" then some nv.2 else none)
  else []

/-- The href value of an anchor tag that carries one (the first `href`
attribute), used to state properties about well-formed tags. -/
def anchorHref (e : StartTag) : Option String :=
  if e.tag = "a" then
    (e.attrs.find? (fun nv => decide (nv.1 = "href"))).map Prod.snd
  else none

/-! ### Manifest builder (first loop of `generate`) -/

/-- Body of the manifest loop of `generate` for one link: derive the vector
name from the last path segment, stripped at the first dot, and synthesize
the placeholder record. -/
def vectorOfUrl (url : String) : TestVector :=
  let file_url := ((splitOnChar '/' url.toList).getLastD []).asString
  let name := ((splitOnChar '.' file_url.toList).headD []).asString
  { name := name, source := url, source_hash := "",
    input := name ++ ".bin", result := "" }

/-- The manifest loop of `generate`: drop the first link, skip links that
contain `00readme_H`, and build one placeholder vector per remaining link. -/
def buildVectors (links : List String) : List TestVector :=
  (links.drop 1).filterMap (fun url =>
    if strContains url "00readme_H" = true then none else some (vectorOfUrl url))

/-! ### Artifact locator (`_find_by_ext`) -/

/-- Python `filepath.endswith(exts)` with a tuple of suffixes. -/
def endsWithAny (filepath : String) (exts : List String) : Bool :=
  exts.any (fun e => pyEndsWith filepath e)

/-- The exclusion test of `_find_by_ext`: some exclusion string occurs as a
substring of the full path. -/
def isExcluded (filepath : String) (excludes : List String) : Bool :=
  excludes.any (fun excl => strContains filepath excl)

/-- Inner loop of `_find_by_ext` over the files of one walked directory. -/
def findInFiles (subdir : String) (exts excludes : List String) :
    List String → Option String
  | [] => none
  | filename :: rest =>
    let filepath := subdir ++ "/" ++ filename
    if (!isExcluded filepath excludes) && endsWithAny filepath exts then
      some filepath
    else findInFiles subdir exts excludes rest

/-- `_find_by_ext`: scan the `os.walk` output (modelled as the list of
`(subdir, files)` pairs in traversal order) and return the first acceptable
full path, or `none`. -/
def find_by_ext (walk : List (String × List String))
    (exts excludes : List String) : Option String :=
  match walk with
  | [] => none
  | (subdir, files) :: rest =>
    match findInFiles subdir exts excludes files with
    | some fp => some fp
    | none => find_by_ext rest exts excludes

/-- All full paths produced by a walk, in traversal order. -/
def allFiles (walk : List (String × List String)) : List String :=
  walk.flatMap (fun e => e.2.map (fun f => e.1 ++ "/" ++ f))

/-! ### Checksum extraction (`_fill_checksum_h265`, `_fill_checksum_h264`) -/

/-- Parse of one line in the loop body of `_fill_checksum_h265`:
`line.split('=')[-1].strip().upper()` when the line contains `=`, else
`line.split(' ')[0].split('\n')[0].upper()`. -/
def parseChecksumLine (line : String) : String :=
  if strContains line "=" = true then
    (pyUpperL (pyStripL ((splitOnChar '=' line.toList).getLastD []))).asString
  else
    (pyUpperL
      ((splitOnChar '\n' ((splitOnChar ' ' line.toList).headD [])).headD [])).asString

/-- The skip test of the loop: `line.startswith(('#', '\n'))`. -/
def skipLine (line : String) : Bool :=
  pyStartsWith line "#" || pyStartsWith line "\n"

/-- The `while True` line loop of `_fill_checksum_h265` over the lines of the
checksum file.  When the list is exhausted, `readline()` returns the empty
string, which is not skipped and is parsed by the else branch. -/
def h265Extract : List String → String
  | [] => parseChecksumLine ""
  | line :: rest => if skipLine line = true then h265Extract rest else parseChecksumLine line

/-- Step-indexed version of the line loop, counting iterations, used to state
termination bounds. -/
def h265ExtractFuel : Nat → List String → Option String
  | 0, _ => none
  | _ + 1, [] => some (parseChecksumLine "")
  | fuel + 1, line :: rest =>
    if skipLine line = true then h265ExtractFuel fuel rest
    else some (parseChecksumLine line)

/-- `_fill_checksum_h265`: locate the checksum file, raise when absent, else
store the parsed first substantive line as the vector result.  `contents`
maps a path to the lines of the file. -/
def fill_checksum_h265 (walk : List (String × List String))
    (contents : String → List String) (tv : TestVector) :
    Except String TestVector :=
  match find_by_ext walk MD5_EXTS MD5_EXCLUDES with
  | none => Except.error "MD5 not found"
  | some checksum_file =>
    Except.ok { tv with result := h265Extract (contents checksum_file) }

/-- `_fill_checksum_h264`: locate a raw file, raise when absent, else store
its content hash (computed by the external `utils.file_checksum`, modelled by
the `fileChecksum` parameter) as the vector result. -/
def fill_checksum_h264 (walk : List (String × List String))
    (fileChecksum : String → String) (tv : TestVector) :
    Except String TestVector :=
  match find_by_ext walk RAW_EXTS [] with
  | none => Except.error "RAW file not found"
  | some raw_file => Except.ok { tv with result := fileChecksum raw_file }

/-! ### Per-vector resolution and the whole generation run -/

/-- Body of the second loop of `generate` for one vector: locate the
bitstream (raise when missing or falsy), record its path and the source
hash, then fill the expected checksum by codec.  `walk` gives the `os.walk`
output below each directory. -/
def resolveVector (walk : String → List (String × List String))
    (contents : String → List String) (fileChecksum : String → String)
    (codec : Codec) (suiteName : String) (tv : TestVector) :
    Except String TestVector :=
  let dest_dir := "resources" ++ "/" ++ suiteName ++ "/" ++ tv.name
  let dest_path := dest_dir ++ "/" ++ ((splitOnChar '/' tv.source.toList).getLastD []).asString
  match find_by_ext (walk dest_dir) BITSTREAM_EXTS [] with
  | none => Except.error ("Bitstream file not found in " ++ dest_dir)
  | some found =>
    if found = "" then Except.error ("Bitstream file not found in " ++ dest_dir)
    else
      let tv2 := { tv with input := found, source_hash := fileChecksum dest_path }
      match codec with
      | Codec.H265 => fill_checksum_h265 (walk dest_dir) contents tv2
      | Codec.H264 => fill_checksum_h264 (walk dest_dir) fileChecksum tv2

/-- The second loop of `generate` over all vectors.  An error anywhere aborts
the run before `to_json_file` is called; `Except.ok` carries the list of
vectors that is persisted. -/
def resolveAll (walk : String → List (String × List String))
    (contents : String → List String) (fileChecksum : String → String)
    (codec : Codec) (suiteName : String) :
    List TestVector → Except String (List TestVector)
  | [] => Except.ok []
  | tv :: rest =>
    match resolveVector walk contents fileChecksum codec suiteName tv with
    | Except.error e => Except.error e
    | Except.ok tv2 =>
      match resolveAll walk contents fileChecksum codec suiteName rest with
      | Except.error e => Except.error e
      | Except.ok rest2 => Except.ok (tv2 :: rest2)

/-- `JCTVTGenerator.generate` after the page fetch: feed the listing to the
parser (starting from the current shared links state), build the manifest,
resolve every vector, and persist on success. -/
def generate (initialLinks : List String) (events : List StartTag)
    (walk : String → List (String × List String))
    (contents : String → List String) (fileChecksum : String → String)
    (codec : Codec) (suiteName : String) : Except String (List TestVector) :=
  resolveAll walk contents fileChecksum codec suiteName
    (buildVectors (feed initialLinks events))

/-! ### Specification-side helpers

These definitions follow the wording of the specification (last path
segment, stem before the first dot, text after the last `=`), not the
splitting code of the script; the theorems below relate the two. -/

/-- Everything after the last occurrence of `sep` in `s` (the whole of `s`
when `sep` does not occur). -/
def afterLastChar (sep : Char) (s : String) : String :=
  ((s.toList.reverse.takeWhile (fun c => c != sep)).reverse).asString

/-- The final path segment of a URL or path. -/
def lastSegment (s : String) : String := afterLastChar '/' s

/-- The stem of a filename: everything before the first dot. -/
def stemName (s : String) : String :=
  (s.toList.takeWhile (fun c => c != '.')).asString

/-! ### Helper lemmas about the string primitives -/

theorem toList_asString (l : List Char) : l.asString.toList = l := rfl

theorem toList_append (s t : String) : (s ++ t).toList = s.toList ++ t.toList := by
  simp [String.toList]

theorem splitOnChar_ne_nil (sep : Char) (l : List Char) : splitOnChar sep l ≠ [] := by
  induction l with
  | nil => simp [splitOnChar]
  | cons c rest ih =>
    simp only [splitOnChar]
    split
    · simp
    · cases h : splitOnChar sep rest <;> simp

theorem headD_splitOnChar (sep : Char) (l : List Char) :
    (splitOnChar sep l).headD [] = l.takeWhile (fun c => c != sep) := by
  induction l with
  | nil => rfl
  | cons c rest ih =>
    by_cases h : c = sep
    · simp [splitOnChar, h, List.takeWhile_cons]
    · simp only [splitOnChar, if_neg h]
      cases hS : splitOnChar sep rest with
      | nil => exact absurd hS (splitOnChar_ne_nil sep rest)
      | cons hd tl =>
        rw [hS] at ih
        simp only [List.headD_cons] at ih
        simp [List.takeWhile_cons, h, ← ih]

theorem takeWhile_append_cons {α : Type} (p : α → Bool) (x : α) (l₁ l₂ : List α)
    (hx : p x = false) :
    ((l₁ ++ x :: l₂).takeWhile p) = l₁.takeWhile p := by
  induction l₁ with
  | nil => simp [List.takeWhile_cons, hx]
  | cons a t ih =>
    simp only [List.cons_append, List.takeWhile_cons]
    cases hp : p a <;> simp [ih]

theorem splitOnChar_of_not_mem (sep : Char) (l : List Char) (h : sep ∉ l) :
    splitOnChar sep l = [l] := by
  induction l with
  | nil => rfl
  | cons c rest ih =>
    have hc : ¬ c = sep := fun hc => h (hc ▸ List.mem_cons_self c rest)
    have hrest : sep ∉ rest := fun hr => h (List.mem_cons_of_mem c hr)
    simp only [splitOnChar, if_neg hc, ih hrest]

theorem two_le_length_splitOnChar (sep : Char) (l : List Char) (h : sep ∈ l) :
    2 ≤ (splitOnChar sep l).length := by
  induction l with
  | nil => exact absurd h (List.not_mem_nil sep)
  | cons c rest ih =>
    by_cases hc : c = sep
    · simp only [splitOnChar, if_pos hc, List.length_cons]
      have := List.length_pos.mpr (splitOnChar_ne_nil sep rest)
      omega
    · have hrest : sep ∈ rest := by
        rcases List.mem_cons.mp h with h1 | h1
        · exact absurd h1.symm hc
        · exact h1
      simp only [splitOnChar, if_neg hc]
      cases hS : splitOnChar sep rest with
      | nil => exact absurd hS (splitOnChar_ne_nil sep rest)
      | cons hd tl =>
        have := ih hrest
        rw [hS] at this
        simpa using this

theorem takeWhile_append_of_mem_neg {α : Type} (p : α → Bool) (l₁ l₂ : List α)
    (h : ∃ x ∈ l₁, p x = false) :
    ((l₁ ++ l₂).takeWhile p) = l₁.takeWhile p := by
  induction l₁ with
  | nil =>
    rcases h with ⟨x, hx, _⟩
    simp at hx
  | cons a t ih =>
    simp only [List.cons_append, List.takeWhile_cons]
    cases hp : p a with
    | false => rfl
    | true =>
      rcases h with ⟨x, hx, hpx⟩
      rcases List.mem_cons.mp hx with rfl | hx2
      · rw [hp] at hpx; exact absurd hpx (by simp)
      · simp [ih ⟨x, hx2, hpx⟩]

theorem getLastD_splitOnChar (sep : Char) (l : List Char) :
    (splitOnChar sep l).getLastD [] =
      (l.reverse.takeWhile (fun c => c != sep)).reverse := by
  induction l with
  | nil => rfl
  | cons c rest ih =>
    by_cases hc : c = sep
    · rw [show splitOnChar sep (c :: rest) = [] :: splitOnChar sep rest by
        simp [splitOnChar, hc]]
      rw [List.getLastD_cons, List.reverse_cons,
        takeWhile_append_cons _ c _ _ (by simp [hc])]
      exact ih
    · by_cases hmem : sep ∈ rest
      · simp only [splitOnChar, if_neg hc]
        cases hS : splitOnChar sep rest with
        | nil => exact absurd hS (splitOnChar_ne_nil sep rest)
        | cons hd tl =>
          have hlen := two_le_length_splitOnChar sep rest hmem
          rw [hS] at hlen
          cases tl with
          | nil => simp at hlen
          | cons u t2 =>
            rw [hS] at ih
            simp only [List.getLastD_cons] at ih ⊢
            rw [ih, List.reverse_cons,
              takeWhile_append_of_mem_neg _ _ _
                ⟨sep, List.mem_reverse.mpr hmem, by simp⟩]
      · have hnot : sep ∉ c :: rest := by
          intro hx
          rcases List.mem_cons.mp hx with h1 | h1
          · exact hc h1.symm
          · exact hmem h1
        rw [splitOnChar_of_not_mem sep _ hnot]
        have hall : ∀ x ∈ (c :: rest).reverse, (x != sep) = true := by
          intro x hx
          have hx2 : x ∈ c :: rest := List.mem_reverse.mp hx
          have hx3 : ¬ x = sep := fun he => hnot (he ▸ hx2)
          simpa using hx3
        rw [List.takeWhile_eq_self_iff.mpr hall, List.reverse_reverse]
        rfl

theorem containsSub_singleton (c : Char) (l : List Char) :
    containsSub [c] l = true ↔ c ∈ l := by
  induction l with
  | nil => simp [containsSub, List.isEmpty]
  | cons a rest ih =>
    simp only [containsSub, List.isPrefixOf, Bool.or_eq_true, ih, List.mem_cons]
    constructor
    · rintro (h | h)
      · left
        have := (Bool.and_eq_true _ _).mp h
        exact (beq_iff_eq.mp this.1)
      · right; exact h
    · rintro (h | h)
      · left; simp [h, List.isPrefixOf]
      · right; exact h

/-! ### Helper lemmas about the manifest builder -/

theorem filterMap_if_eq_filter_map {α β : Type} (p : α → Bool) (g : α → β)
    (l : List α) :
    l.filterMap (fun a => if p a = true then none else some (g a)) =
      (l.filter (fun a => !p a)).map g := by
  induction l with
  | nil => rfl
  | cons a rest ih =>
    cases hp : p a <;>
      simp [List.filterMap_cons, List.filter_cons, hp, ih]

theorem vectorOfUrl_eq (url : String) :
    vectorOfUrl url =
      { name := stemName (lastSegment url), source := url, source_hash := "",
        input := stemName (lastSegment url) ++ ".bin", result := "" } := by
  simp only [vectorOfUrl, stemName, lastSegment, afterLastChar, toList_asString,
    headD_splitOnChar, getLastD_splitOnChar]

/-! ### Helper lemmas about the artifact locator -/

theorem findInFiles_eq_find? (subdir : String) (exts excludes files : List String) :
    findInFiles subdir exts excludes files =
      (files.map (fun f => subdir ++ "/" ++ f)).find?
        (fun fp => (!isExcluded fp excludes) && endsWithAny fp exts) := by
  induction files with
  | nil => rfl
  | cons f rest ih =>
    simp only [findInFiles, List.map_cons, List.find?_cons]
    cases h : (!isExcluded (subdir ++ "/" ++ f) excludes) &&
        endsWithAny (subdir ++ "/" ++ f) exts <;>
      simp [h, ih]

theorem find_by_ext_eq_find? (walk : List (String × List String))
    (exts excludes : List String) :
    find_by_ext walk exts excludes =
      (allFiles walk).find?
        (fun fp => (!isExcluded fp excludes) && endsWithAny fp exts) := by
  induction walk with
  | nil => rfl
  | cons entry rest ih =>
    obtain ⟨subdir, files⟩ := entry
    simp only [find_by_ext, allFiles, List.flatMap_cons, List.find?_append,
      findInFiles_eq_find?, ih]
    cases (files.map (fun f => subdir ++ "/" ++ f)).find?
        (fun fp => (!isExcluded fp excludes) && endsWithAny fp exts) <;>
      simp [Option.or, allFiles]

theorem find_by_ext_eq_none_iff (walk : List (String × List String))
    (exts excludes : List String) :
    find_by_ext walk exts excludes = none ↔
      ∀ fp ∈ allFiles walk,
        ((!isExcluded fp excludes) && endsWithAny fp exts) = false := by
  rw [find_by_ext_eq_find?, List.find?_eq_none]
  constructor
  · intro h fp hfp
    simpa using h fp hfp
  · intro h fp hfp
    simp [h fp hfp]

/-! ### Helper lemmas about the checksum line loop -/

theorem h265Extract_append_of_skip (pre rest : List String)
    (h : ∀ l ∈ pre, skipLine l = true) :
    h265Extract (pre ++ rest) = h265Extract rest := by
  induction pre with
  | nil => rfl
  | cons a t ih =>
    have ha : skipLine a = true := h a (List.mem_cons_self a t)
    simp only [List.cons_append, h265Extract, ha, if_pos]
    exact ih (fun l hl => h l (List.mem_cons_of_mem a hl))

theorem parseChecksumLine_empty : parseChecksumLine "" = "" := by decide

theorem h265Extract_all_skip (lines : List String)
    (h : ∀ l ∈ lines, skipLine l = true) :
    h265Extract lines = "" := by
  have h2 := h265Extract_append_of_skip lines [] h
  rw [List.append_nil] at h2
  rw [h2]
  exact parseChecksumLine_empty

theorem h265Extract_cons_of_not_skip (line : String) (rest : List String)
    (h : skipLine line = false) :
    h265Extract (line :: rest) = parseChecksumLine line := by
  simp [h265Extract, h]

/-! ### Helper lemmas about the link extractor -/

theorem hrefFold_eq (links : List String) (attrs : List (String × String)) :
    attrs.foldl
        (fun ls nv => if nv.1 = "href" then ls ++ [BASE_URL ++ nv.2] else ls) links =
      links ++
        (attrs.filterMap (fun nv => if nv.1 = "href" then some nv.2 else none)).map
          (fun v => BASE_URL ++ v) := by
  induction attrs generalizing links with
  | nil => simp
  | cons nv rest ih =>
    simp only [List.foldl_cons, List.filterMap_cons]
    by_cases h : nv.1 = "href"
    · simp [h, ih]
    · simp [h, ih]

theorem handle_starttag_eq (links : List String) (e : StartTag) :
    handle_starttag links e = links ++ (tagHrefs e).map (fun v => BASE_URL ++ v) := by
  unfold handle_starttag tagHrefs
  by_cases h : e.tag = "a"
  · simp only [if_pos h, hrefFold_eq]
  · simp [if_neg h]

theorem feed_eq (links : List String) (events : List StartTag) :
    feed links events =
      links ++ (events.flatMap tagHrefs).map (fun v => BASE_URL ++ v) := by
  induction events generalizing links with
  | nil => simp [feed]
  | cons e rest ih =>
    show feed (handle_starttag links e) rest = _
    rw [ih, handle_starttag_eq, List.flatMap_cons, List.map_append,
      List.append_assoc]

theorem filterMap_href_eq (attrs : List (String × String)) :
    attrs.filterMap (fun nv => if nv.1 = "href" then some nv.2 else none) =
      (attrs.filter (fun nv => decide (nv.1 = "href"))).map Prod.snd := by
  induction attrs with
  | nil => rfl
  | cons nv rest ih =>
    by_cases h : nv.1 = "href" <;>
      simp [List.filterMap_cons, List.filter_cons, h, ih]

theorem find?_eq_head?_filter {α : Type} (p : α → Bool) (l : List α) :
    l.find? p = (l.filter p).head? := by
  induction l with
  | nil => rfl
  | cons a rest ih =>
    cases h : p a
    · rw [List.find?_cons_of_neg _ (by simp [h]),
        List.filter_cons_of_neg (by simp [h]), ih]
    · rw [List.find?_cons_of_pos _ h, List.filter_cons_of_pos h, List.head?_cons]

theorem tagHrefs_of_unique (e : StartTag)
    (h : (e.attrs.filter (fun nv => decide (nv.1 = "href"))).length ≤ 1) :
    tagHrefs e = (anchorHref e).toList := by
  unfold tagHrefs anchorHref
  by_cases ht : e.tag = "a"
  · simp only [if_pos ht, filterMap_href_eq, find?_eq_head?_filter]
    cases hfl : e.attrs.filter (fun nv => decide (nv.1 = "href")) with
    | nil => simp
    | cons x t =>
      cases t with
      | nil => simp
      | cons y t2 =>
        rw [hfl] at h
        simp at h
  · simp [if_neg ht]

theorem feed_nil_eq (events : List StartTag)
    (h : ∀ e ∈ events,
      (e.attrs.filter (fun nv => decide (nv.1 = "href"))).length ≤ 1) :
    feed [] events =
      (events.filterMap anchorHref).map (fun v => BASE_URL ++ v) := by
  rw [feed_eq, List.nil_append]
  congr 1
  induction events with
  | nil => rfl
  | cons e rest ih =>
    rw [List.flatMap_cons, List.filterMap_cons,
      tagHrefs_of_unique e (h e (List.mem_cons_self e rest)),
      ih (fun x hx => h x (List.mem_cons_of_mem e hx))]
    cases anchorHref e <;> simp

/-! ### Helper lemmas about the resolution loop -/

theorem fill_checksum_h265_input (walk : List (String × List String))
    (contents : String → List String) (tv tv2 : TestVector)
    (h : fill_checksum_h265 walk contents tv = Except.ok tv2) :
    tv2.input = tv.input := by
  unfold fill_checksum_h265 at h
  cases hf : find_by_ext walk MD5_EXTS MD5_EXCLUDES <;> rw [hf] at h
  · exact absurd h (by simp)
  · simp only [Except.ok.injEq] at h
    rw [← h]

theorem fill_checksum_h264_input (walk : List (String × List String))
    (fileChecksum : String → String) (tv tv2 : TestVector)
    (h : fill_checksum_h264 walk fileChecksum tv = Except.ok tv2) :
    tv2.input = tv.input := by
  unfold fill_checksum_h264 at h
  cases hf : find_by_ext walk RAW_EXTS [] <;> rw [hf] at h
  · exact absurd h (by simp)
  · simp only [Except.ok.injEq] at h
    rw [← h]

theorem resolveVector_input_ne (walk : String → List (String × List String))
    (contents : String → List String) (fileChecksum : String → String)
    (codec : Codec) (suiteName : String) (tv tv2 : TestVector)
    (h : resolveVector walk contents fileChecksum codec suiteName tv =
      Except.ok tv2) :
    tv2.input ≠ "" := by
  unfold resolveVector at h
  cases hf : find_by_ext (walk ("resources" ++ "/" ++ suiteName ++ "/" ++ tv.name))
      BITSTREAM_EXTS [] <;> simp only [hf] at h
  · exact absurd h (by simp)
  · rename_i found
    by_cases hfound : found = ""
    · rw [if_pos hfound] at h
      exact absurd h (by simp)
    · rw [if_neg hfound] at h
      cases codec with
      | H265 =>
        simp only at h
        have := fill_checksum_h265_input _ _ _ _ h
        rw [this]
        exact hfound
      | H264 =>
        simp only at h
        have := fill_checksum_h264_input _ _ _ _ h
        rw [this]
        exact hfound

theorem resolveAll_input_ne (walk : String → List (String × List String))
    (contents : String → List String) (fileChecksum : String → String)
    (codec : Codec) (suiteName : String) (tvs vs : List TestVector)
    (h : resolveAll walk contents fileChecksum codec suiteName tvs =
      Except.ok vs) :
    ∀ v ∈ vs, v.input ≠ "" := by
  induction tvs generalizing vs with
  | nil =>
    simp only [resolveAll, Except.ok.injEq] at h
    subst h
    simp
  | cons tv rest ih =>
    simp only [resolveAll] at h
    cases h1 : resolveVector walk contents fileChecksum codec suiteName tv <;>
      rw [h1] at h
    · exact absurd h (by simp)
    · cases h2 : resolveAll walk contents fileChecksum codec suiteName rest <;>
        rw [h2] at h
      · exact absurd h (by simp)
      · simp only [Except.ok.injEq] at h
        subst h
        intro v hv
        rcases List.mem_cons.mp hv with rfl | hv2
        · exact resolveVector_input_ne _ _ _ _ _ _ _ h1
        · exact ih _ h2 v hv2

/-! ### Claim theorems -/

/-- Claim C3: for a first substantive line of the form `<hash> *<filename>`
with no `=` character, the extractor stores the token before the first
space, upper-cased; for a line containing `=` it stores everything after the
last `=`, stripped of surrounding whitespace and upper-cased; in particular
the two concrete example lines quoted in the script yield the documented
hashes. -/
theorem checksum_line_layouts (h rest line : String)
    (hsp : ' ' ∉ h.toList) (hnl : '\n' ∉ h.toList)
    (he1 : '=' ∉ h.toList) (he2 : '=' ∉ rest.toList)
    (hline : '=' ∈ line.toList) :
    parseChecksumLine (h ++ " " ++ rest) = pyUpper h ∧
    parseChecksumLine line = pyUpper (pyStrip (afterLastChar '=' line)) ∧
    parseChecksumLine "158312a1a35ef4b20cb4aeee48549c03 *WP_A_Toshiba_3.bit\n" =
      "158312A1A35EF4B20CB4AEEE48549C03" ∧
    parseChecksumLine "MD5 (rec.yuv) = e5c4c20a8871aa446a344efb1755bcf9\n" =
      "E5C4C20A8871AA446A344EFB1755BCF9" := by
  refine ⟨?_, ?_, by decide, by decide⟩
  · have hlist : (h ++ " " ++ rest).toList = h.toList ++ ' ' :: rest.toList := by
      rw [toList_append, toList_append, List.append_assoc]
      rfl
    have hnm : '=' ∉ (h ++ " " ++ rest).toList := by
      rw [hlist]
      intro hc
      rcases List.mem_append.mp hc with hc | hc
      · exact he1 hc
      · rcases List.mem_cons.mp hc with hc | hc
        · exact absurd hc (by decide)
        · exact he2 hc
    have hnc : strContains (h ++ " " ++ rest) "=" = false := by
      rw [Bool.eq_false_iff]
      intro hc
      exact hnm ((containsSub_singleton '=' _).mp hc)
    have hall1 : ∀ x ∈ h.toList, (x != ' ') = true := by
      intro x hx
      simp only [bne_iff_ne, ne_eq]
      intro he
      exact hsp (he ▸ hx)
    have hall2 : ∀ x ∈ h.toList, (x != '\n') = true := by
      intro x hx
      simp only [bne_iff_ne, ne_eq]
      intro he
      exact hnl (he ▸ hx)
    rw [parseChecksumLine, if_neg (by simp [hnc])]
    rw [hlist, headD_splitOnChar ' ' (h.toList ++ ' ' :: rest.toList),
      takeWhile_append_cons _ ' ' _ _ (by simp),
      List.takeWhile_eq_self_iff.mpr hall1,
      headD_splitOnChar '\n' h.toList,
      List.takeWhile_eq_self_iff.mpr hall2]
    rfl
  · have hc : strContains line "=" = true := (containsSub_singleton '=' _).mpr hline
    rw [parseChecksumLine, if_pos (by simp [hc]), getLastD_splitOnChar]
    rfl

/-- Witness for the line-layout theorem at concrete inputs. -/
theorem checksum_line_layouts_witness :
    parseChecksumLine ("0abc" ++ " " ++ "*F.bit\n") = pyUpper "0abc" ∧
    parseChecksumLine "MD5 (r.yuv) = 0abc\n" =
      pyUpper (pyStrip (afterLastChar '=' "MD5 (r.yuv) = 0abc\n")) ∧
    parseChecksumLine "158312a1a35ef4b20cb4aeee48549c03 *WP_A_Toshiba_3.bit\n" =
      "158312A1A35EF4B20CB4AEEE48549C03" ∧
    parseChecksumLine "MD5 (rec.yuv) = e5c4c20a8871aa446a344efb1755bcf9\n" =
      "E5C4C20A8871AA446A344EFB1755BCF9" :=
  checksum_line_layouts "0abc" "*F.bit\n" "MD5 (r.yuv) = 0abc\n"
    (by decide) (by decide) (by decide) (by decide) (by decide)

/-- Claim C4: the loop scans from the top, skips every leading line starting
with `#` or a newline (a blank line), parses exactly the first substantive
line, and ignores all lines after it; in particular two comment lines
followed by a data line in either layout yield the parse of the data line. -/
theorem checksum_scan_structure (pre post : List String) (line : String)
    (hpre : ∀ l ∈ pre, skipLine l = true) (hline : skipLine line = false) :
    h265Extract (pre ++ line :: post) = parseChecksumLine line ∧
    h265Extract (pre ++ line :: post) = h265Extract (pre ++ [line]) ∧
    h265Extract ["# c1\n", "# c2\n", "0abc *F.bit\n"] = "0ABC" ∧
    h265Extract ["# c1\n", "# c2\n", "MD5 (r.yuv) = 0abc\n"] = "0ABC" := by
  have h1 : h265Extract (pre ++ line :: post) = parseChecksumLine line := by
    rw [h265Extract_append_of_skip pre _ hpre,
      h265Extract_cons_of_not_skip _ _ hline]
  have h2 : h265Extract (pre ++ [line]) = parseChecksumLine line := by
    rw [h265Extract_append_of_skip pre _ hpre,
      h265Extract_cons_of_not_skip _ _ hline]
  exact ⟨h1, h1.trans h2.symm, by decide, by decide⟩

/-- Witness for the scan-structure theorem at concrete inputs. -/
theorem checksum_scan_structure_witness :
    h265Extract (["# a\n"] ++ "x y\n" :: ["tail\n"]) = parseChecksumLine "x y\n" ∧
    h265Extract (["# a\n"] ++ "x y\n" :: ["tail\n"]) =
      h265Extract (["# a\n"] ++ ["x y\n"]) ∧
    h265Extract ["# c1\n", "# c2\n", "0abc *F.bit\n"] = "0ABC" ∧
    h265Extract ["# c1\n", "# c2\n", "MD5 (r.yuv) = 0abc\n"] = "0ABC" :=
  checksum_scan_structure ["# a\n"] ["tail\n"] "x y\n" (by decide) (by decide)

/-- Claim C5: `_find_by_ext` returns the first file of the walk whose full
path avoids every exclusion substring and ends in an accepted suffix, `none`
when no file of the subtree qualifies; on a directory with exactly one
`.md5` and one `.bin.md5` file and exclusion `.bin.md5` it returns the
`.md5` file in either traversal order. -/
theorem find_by_ext_first_match (walk : List (String × List String))
    (exts excludes : List String) :
    (find_by_ext walk exts excludes =
      (allFiles walk).find?
        (fun fp => (!isExcluded fp excludes) && endsWithAny fp exts)) ∧
    ((∀ fp ∈ allFiles walk,
        ((!isExcluded fp excludes) && endsWithAny fp exts) = false) →
      find_by_ext walk exts excludes = none) ∧
    find_by_ext [("d", ["x.bin.md5", "y.md5"])] [".md5"] [".bin.md5"] =
      some "d/y.md5" ∧
    find_by_ext [("d", ["y.md5", "x.bin.md5"])] [".md5"] [".bin.md5"] =
      some "d/y.md5" := by
  refine ⟨find_by_ext_eq_find? walk exts excludes, ?_, by decide, by decide⟩
  intro hall
  exact (find_by_ext_eq_none_iff walk exts excludes).mpr hall

/-- Witness: the locator returns the not-found sentinel on a directory with
no matching file. -/
theorem find_by_ext_first_match_witness :
    find_by_ext [("d", ["a.txt"])] [".md5"] [] = none :=
  (find_by_ext_first_match [("d", ["a.txt"])] [".md5"] []).2.1 (by decide)

/-- Claim C6: the manifest loop always drops the first link whatever it is,
never emits a vector for a link containing `00readme_H`, and maps each
remaining link, in input order, to a vector named by the final path segment
stripped from the first dot onward, with input `<name>.bin` and empty
source hash and result. -/
theorem manifest_builder_spec (l0 : String) (links : List String) :
    buildVectors (l0 :: links) =
      (links.filter (fun url => !strContains url "00readme_H")).map
        (fun url =>
          { name := stemName (lastSegment url), source := url, source_hash := "",
            input := stemName (lastSegment url) ++ ".bin", result := "" }) := by
  unfold buildVectors
  rw [List.drop_one, List.tail_cons,
    filterMap_if_eq_filter_map (fun url => strContains url "00readme_H")
      vectorOfUrl links]
  congr 1
  funext url
  exact vectorOfUrl_eq url

/-- Claim C7: an HTML input whose anchor tags carry at most one href each
produces exactly one link per anchor-with-href, the base URL prefixed to the
href value, in document order. -/
theorem link_extractor_spec (events : List StartTag)
    (h : ∀ e ∈ events,
      (e.attrs.filter (fun nv => decide (nv.1 = "href"))).length ≤ 1) :
    feed [] events =
      (events.filterMap anchorHref).map (fun v => BASE_URL ++ v) ∧
    (feed [] events).length = (events.filterMap anchorHref).length := by
  have h1 := feed_nil_eq events h
  exact ⟨h1, by rw [h1, List.length_map]⟩

/-- Witness for the link extractor on a concrete three-event document. -/
theorem link_extractor_spec_witness :
    feed [] [⟨"a", [("href", "x")]⟩, ⟨"div", []⟩, ⟨"a", [("id", "7"), ("href", "y")]⟩] =
      (([⟨"a", [("href", "x")]⟩, ⟨"div", []⟩, ⟨"a", [("id", "7"), ("href", "y")]⟩] :
          List StartTag).filterMap anchorHref).map (fun v => BASE_URL ++ v) ∧
    (feed [] [⟨"a", [("href", "x")]⟩, ⟨"div", []⟩, ⟨"a", [("id", "7"), ("href", "y")]⟩]).length =
      (([⟨"a", [("href", "x")]⟩, ⟨"div", []⟩, ⟨"a", [("id", "7"), ("href", "y")]⟩] :
          List StartTag).filterMap anchorHref).length :=
  link_extractor_spec
    [⟨"a", [("href", "x")]⟩, ⟨"div", []⟩, ⟨"a", [("id", "7"), ("href", "y")]⟩]
    (by decide)

/-- Claim C8: H.264 checksum filling fails exactly when no file ending in a
raw-sample extension (`.yuv`, `.qcif`) exists in the walked directory;
otherwise it stores the content hash of the located raw file as the result,
with no textual parsing of the file. -/
theorem h264_checksum_spec (walk : List (String × List String))
    (fileChecksum : String → String) (tv : TestVector) :
    ((∃ msg, fill_checksum_h264 walk fileChecksum tv = Except.error msg) ↔
      ∀ fp ∈ allFiles walk, endsWithAny fp RAW_EXTS = false) ∧
    (∀ raw_file, find_by_ext walk RAW_EXTS [] = some raw_file →
      fill_checksum_h264 walk fileChecksum tv =
        Except.ok { tv with result := fileChecksum raw_file }) := by
  have hiff : find_by_ext walk RAW_EXTS [] = none ↔
      ∀ fp ∈ allFiles walk, endsWithAny fp RAW_EXTS = false := by
    rw [find_by_ext_eq_none_iff]
    constructor <;> intro ha fp hfp <;> have hb := ha fp hfp <;>
      simpa [isExcluded] using hb
  constructor
  · constructor
    · rintro ⟨msg, hmsg⟩
      unfold fill_checksum_h264 at hmsg
      cases hf : find_by_ext walk RAW_EXTS [] <;> rw [hf] at hmsg
      · exact hiff.mp hf
      · exact absurd hmsg (by simp)
    · intro hall
      unfold fill_checksum_h264
      rw [hiff.mpr hall]
      exact ⟨"RAW file not found", rfl⟩
  · intro raw_file hrf
    unfold fill_checksum_h264
    rw [hrf]

/-- Witness for H.264 checksum filling on a directory holding one raw file. -/
theorem h264_checksum_spec_witness :
    fill_checksum_h264 [("d", ["r.yuv"])] (fun _ => "HASH")
        { name := "v", source := "s", source_hash := "", input := "d/r.bit",
          result := "" } =
      Except.ok
        { name := "v", source := "s", source_hash := "", input := "d/r.bit",
          result := "HASH" } :=
  (h264_checksum_spec [("d", ["r.yuv"])] (fun _ => "HASH")
    { name := "v", source := "s", source_hash := "", input := "d/r.bit",
      result := "" }).2 "d/r.yuv" (by decide)

/-- Claim C9: the links accumulator is shared state that handle_starttag only
appends to and nothing clears: feeding from any prior state appends the new
links after it, so parsing the same document again through a freshly
constructed instance leaves twice the links, observable through both. -/
theorem links_accumulate (st : List String) (events : List StartTag)
    (h : ∀ e ∈ events,
      (e.attrs.filter (fun nv => decide (nv.1 = "href"))).length ≤ 1) :
    feed st events = st ++ feed [] events ∧
    feed (feed [] events) events = feed [] events ++ feed [] events ∧
    (feed (feed [] events) events).length =
      2 * (events.filterMap anchorHref).length := by
  have hfe : ∀ st2 : List String, feed st2 events = st2 ++ feed [] events := by
    intro st2
    rw [feed_eq st2 events, feed_eq [] events, List.nil_append]
  refine ⟨hfe st, hfe _, ?_⟩
  rw [hfe, List.length_append, feed_nil_eq events h, List.length_map]
  omega

/-- Witness for link accumulation across two parses of one document. -/
theorem links_accumulate_witness :
    feed ["old"] [⟨"a", [("href", "x")]⟩] = ["old"] ++ feed [] [⟨"a", [("href", "x")]⟩] ∧
    feed (feed [] [⟨"a", [("href", "x")]⟩]) [⟨"a", [("href", "x")]⟩] =
      feed [] [⟨"a", [("href", "x")]⟩] ++ feed [] [⟨"a", [("href", "x")]⟩] ∧
    (feed (feed [] [⟨"a", [("href", "x")]⟩]) [⟨"a", [("href", "x")]⟩]).length =
      2 * (([⟨"a", [("href", "x")]⟩] : List StartTag).filterMap anchorHref).length :=
  links_accumulate ["old"] [⟨"a", [("href", "x")]⟩] (by decide)

/-- Claim C10: the line loop of the H.265 extractor terminates on every
finite file: at end of file `readline` returns the empty string, which is
not skipped, so the loop needs at most one iteration more than the file has
lines; with that much fuel the step-indexed loop completes and agrees with
the loop result. -/
theorem line_loop_bounded (fuel : Nat) (lines : List String)
    (h : lines.length < fuel) :
    h265ExtractFuel fuel lines = some (h265Extract lines) := by
  induction lines generalizing fuel with
  | nil =>
    cases fuel with
    | zero => exact absurd h (by simp)
    | succ n => rfl
  | cons line rest ih =>
    cases fuel with
    | zero => exact absurd h (by omega)
    | succ n =>
      have hlen : rest.length < n := by
        simpa using Nat.lt_of_succ_lt_succ (by simpa using h)
      by_cases hs : skipLine line = true
      · show (if skipLine line = true then h265ExtractFuel n rest
            else some (parseChecksumLine line)) = _
        rw [if_pos hs, ih n hlen]
        show _ = some (if skipLine line = true then h265Extract rest
            else parseChecksumLine line)
        rw [if_pos hs]
      · show (if skipLine line = true then h265ExtractFuel n rest
            else some (parseChecksumLine line)) = _
        rw [if_neg hs]
        show _ = some (if skipLine line = true then h265Extract rest
            else parseChecksumLine line)
        rw [if_neg hs]

/-- Witness: the loop finishes within three iterations on a two-line file. -/
theorem line_loop_bounded_witness :
    h265ExtractFuel 3 ["# a\n", "b c\n"] = some (h265Extract ["# a\n", "b c\n"]) :=
  line_loop_bounded 3 ["# a\n", "b c\n"] (by decide)

/-- Counterexample to claim C1 as stated: a generation run that completes
(the resolution loop returns `ok`, after which the manifest is written)
whose single persisted vector carries an EMPTY result string, because its
H.265 checksum file contains only a comment line; no exception is raised. -/
theorem generate_empty_result_counterexample :
    generate []
        [⟨"a", [("href", "conf/00r.txt")]⟩, ⟨"a", [("href", "conf/A.bit")]⟩]
        (fun d => if d = "resources/S/A" then
          [("resources/S/A", ["A.bit", "A.md5"])] else [])
        (fun _ => ["# only a comment\n"])
        (fun _ => "8d5e957f297893487bd98fa830fa6413")
        Codec.H265 "S" =
      Except.ok [{ name := "A", source := "https://www.itu.int/conf/A.bit",
                   source_hash := "8d5e957f297893487bd98fa830fa6413",
                   input := "resources/S/A/A.bit", result := "" }] := by
  rfl

/-- Claim C1 (amended): every vector in a persisted suite has a non-empty
located input path — the run raises before the manifest is written when a
bitstream cannot be located.  (A non-empty result is not guaranteed: see the
counterexample, where a checksum file with no substantive line persists an
empty result.) -/
theorem generate_persisted_input_nonempty (initialLinks : List String)
    (events : List StartTag) (walk : String → List (String × List String))
    (contents : String → List String) (fileChecksum : String → String)
    (codec : Codec) (suiteName : String) (vs : List TestVector)
    (h : generate initialLinks events walk contents fileChecksum codec
      suiteName = Except.ok vs) :
    ∀ v ∈ vs, v.input ≠ "" :=
  resolveAll_input_ne walk contents fileChecksum codec suiteName _ vs h

/-- Witness: the persisted vector of a concrete H.264 run has a non-empty
input path. -/
theorem generate_persisted_input_nonempty_witness :
    ({ name := "B", source := "https://www.itu.int/conf/B.bit",
       source_hash := "HH", input := "resources/T/B/B.bit",
       result := "HH" } : TestVector).input ≠ "" :=
  generate_persisted_input_nonempty []
    [⟨"a", [("href", "conf/00r.txt")]⟩, ⟨"a", [("href", "conf/B.bit")]⟩]
    (fun d => if d = "resources/T/B" then
      [("resources/T/B", ["B.bit", "B.yuv"])] else [])
    (fun _ => []) (fun _ => "HH") Codec.H264 "T"
    [{ name := "B", source := "https://www.itu.int/conf/B.bit",
       source_hash := "HH", input := "resources/T/B/B.bit", result := "HH" }]
    (by rfl)
    { name := "B", source := "https://www.itu.int/conf/B.bit",
      source_hash := "HH", input := "resources/T/B/B.bit", result := "HH" }
    (by simp)

/-- Counterexample to claim C2 as stated: on a located checksum file whose
every line is a comment, `_fill_checksum_h265` does NOT raise — it returns
successfully and stores the empty string as the vector result (overwriting
any previous value). -/
theorem checksum_missing_content_counterexample :
    fill_checksum_h265 [("d", ["r.md5"])]
        (fun _ => ["# generated by MD5summer\n"])
        { name := "v", source := "s", source_hash := "", input := "d/r.bit",
          result := "OLD" } =
      Except.ok
        { name := "v", source := "s", source_hash := "", input := "d/r.bit",
          result := "" } := by
  rfl

/-- Claim C2 (amended): when the located checksum file contains no
substantive line (every line starts with `#` or a newline, or the file is
empty), extraction completes without error and stores the empty string as
the vector result; a fatal error occurs only when no checksum file is
located at all. -/
theorem checksum_missing_content_stores_empty
    (walk : List (String × List String)) (contents : String → List String)
    (tv : TestVector) (cf : String)
    (hfind : find_by_ext walk MD5_EXTS MD5_EXCLUDES = some cf)
    (hall : ∀ l ∈ contents cf, skipLine l = true) :
    fill_checksum_h265 walk contents tv = Except.ok { tv with result := "" } := by
  simp only [fill_checksum_h265, hfind]
  rw [h265Extract_all_skip _ hall]

/-- Witness: checksum filling on an all-comments file returns the vector
with an empty result. -/
theorem checksum_missing_content_stores_empty_witness :
    fill_checksum_h265 [("d", ["r.md5"])] (fun _ => ["# c\n", "\n"])
        { name := "v", source := "s", source_hash := "", input := "d/r.bit",
          result := "" } =
      Except.ok
        { name := "v", source := "s", source_hash := "", input := "d/r.bit",
          result := "" } :=
  checksum_missing_content_stores_empty [("d", ["r.md5"])]
    (fun _ => ["# c\n", "\n"])
    { name := "v", source := "s", source_hash := "", input := "d/r.bit",
      result := "" }
    "d/r.md5" (by decide) (by decide)

end GenJctVc
